import Mathlib

/-!
Verification of the request-queue and HTTP-probe-session core of the
openrasp-iast scanner (files `core/model/new_request_model.py` and
`core/components/audit_tools/session.py`), as a shallow embedding: the
relational scan table becomes a list of records, the SQL statements of
each method become list operations, and the aiohttp retry loop becomes a
fuel-indexed recursion over an oracle of per-attempt outcomes.
-/

namespace OpenraspIast

/-- A row of the `<prefix>_ResultList` table created by
`NewRequestModel._create_model`: an auto-increment integer `id`, the
serialized request `data`, the unique `data_hash`, the integer
`scan_status` (0 = unscanned, 1 = scanned, 2 = in progress, 3 = failed,
per the comment in the source) and the insertion `time`. -/
structure ScanRecord where
  id : Int
  data : String
  data_hash : String
  scan_status : Int
  time : Int
deriving Repr, DecidableEq

/-- The state owned by one `NewRequestModel` instance: the backing table
(in physical row order; auto-increment ids make this insertion order) and
the in-memory `start_id` cursor. -/
structure QueueState where
  table : List ScanRecord
  start_id : Int
deriving Repr, DecidableEq

/-- SQL `MIN(col)` over a list of values: `NULL` (none) on an empty set. -/
def listMin : List Int → Option Int
  | [] => none
  | x :: xs =>
    match listMin xs with
    | none => some x
    | some m => some (min x m)

/-- SQL `MAX(col)` over a list of values: `NULL` (none) on an empty set. -/
def listMax : List Int → Option Int
  | [] => none
  | x :: xs =>
    match listMax xs with
    | none => some x
    | some m => some (max x m)

/-- The largest id present in the table, 0 for an empty table.  The next
auto-increment id handed out by the database is this plus one (the table
never has rows deleted). -/
def maxIdFold (t : List ScanRecord) : Int :=
  (t.map (·.id)).foldl max 0

/-- Embeds `NewRequestModel._init_start_id`: `SELECT MIN(id) WHERE
scan_status != 1`; `start_id` is 0 when the result is NULL and the
minimum minus one otherwise. -/
def init_start_id (t : List ScanRecord) : Int :=
  match listMin ((t.filter (fun r => r.scan_status ≠ 1)).map (·.id)) with
  | none => 0
  | some m => m - 1

/-- The per-row effect of `reset_unscanned_item`'s UPDATE. -/
def resetApply (r : ScanRecord) : ScanRecord :=
  if r.scan_status > 1 then { r with scan_status := 0 } else r

/-- Embeds `NewRequestModel.reset_unscanned_item`: `UPDATE ... SET
scan_status = 0 WHERE scan_status > 1`. -/
def reset_unscanned_item (t : List ScanRecord) : List ScanRecord :=
  t.map resetApply

/-- Modelled from the spec: the scanner's startup sequence (its caller
lives outside the two source files of this development) constructs the
queue — which runs `_init_start_id` over the existing table — and then
invokes `reset_unscanned_item` exactly once ("On construction: ...
2. Compute start_id ... 3. reset_unscanned_item()"). -/
def startup (t : List ScanRecord) : QueueState :=
  { table := reset_unscanned_item t, start_id := init_start_id t }

/-- Embeds `NewRequestModel.put`: `peewee_async.create_object` inserts a
row with a fresh auto-increment id, the serialized `data`, its
`data_hash`, the default `scan_status` 0 and the default timestamp; a
unique-index violation on `data_hash` raises `peewee.IntegrityError`,
which `put` swallows and reports as `False`.  Returns the new state and
the boolean result of `put`. -/
def put (s : QueueState) (data data_hash : String) (now : Int) : QueueState × Bool :=
  if s.table.any (fun r => r.data_hash = data_hash) then
    (s, false)
  else
    ({ s with table := s.table ++ [⟨maxIdFold s.table + 1, data, data_hash, 0, now⟩] }, true)

/-- The order relation used by the SQL `ORDER BY id` clauses. -/
def byId (a b : ScanRecord) : Prop := a.id ≤ b.id

instance : DecidableRel byId := fun a b => inferInstanceAs (Decidable (a.id ≤ b.id))

instance : IsTotal ScanRecord byId := ⟨fun a b => le_total a.id b.id⟩

instance : IsTrans ScanRecord byId := ⟨fun _ _ _ h h' => le_trans h h'⟩

/-- The rows selected by the claim step of `get_new_scan`: `UPDATE ...
SET scan_status = 2 WHERE scan_status = 0 AND id > start_id ORDER BY id
LIMIT count` affects the `count` smallest-id rows matching the WHERE
clause. -/
def claimRecords (s : QueueState) (count : Nat) : List ScanRecord :=
  (List.insertionSort byId
    (s.table.filter (fun r => r.scan_status = 0 ∧ s.start_id < r.id))).take count

/-- The effect of the claim step of `get_new_scan` on one row. -/
def claimApply (s : QueueState) (count : Nat) (r : ScanRecord) : ScanRecord :=
  if r ∈ claimRecords s count then { r with scan_status := 2 } else r

/-- The table after the claim step of `get_new_scan` has run. -/
def claimUpdate (s : QueueState) (count : Nat) : List ScanRecord :=
  s.table.map (claimApply s count)

/-- The rows read back by the fetch step of `get_new_scan`: `SELECT ...
WHERE id >= fetch_star_id AND scan_status = 2 ORDER BY id LIMIT
row_count`, run on the updated table, where `fsid` is the id found by the
probe and `row_count` is the affected-row count of the claim update. -/
def fetchRecords (s : QueueState) (count : Nat) (fsid : Int) : List ScanRecord :=
  (List.insertionSort byId
    ((claimUpdate s count).filter (fun r => fsid ≤ r.id ∧ r.scan_status = 2))).take
    (claimRecords s count).length

/-- Embeds `NewRequestModel.get_new_scan`.  Step 1 (probe): `SELECT ...
WHERE id > start_id AND scan_status = 0 LIMIT 1`; NULL result returns the
empty list.  Step 2 (claim): the `claimRecords` update, whose
affected-row count is `row_count`; 0 returns the empty list.  Step 3
(fetch): the `fetchRecords` query, decoded into `(id, data)` items. -/
def get_new_scan (s : QueueState) (count : Nat) : QueueState × List (Int × String) :=
  match s.table.find? (fun r => s.start_id < r.id ∧ r.scan_status = 0) with
  | none => (s, [])
  | some r0 =>
    if (claimRecords s count).length = 0 then ({ s with table := claimUpdate s count }, [])
    else ({ s with table := claimUpdate s count },
      (fetchRecords s count r0.id).map (fun r => (r.id, r.data)))

/-- The per-row effect of the two UPDATE statements of `mark_result`, in
source order: first `SET scan_status = 3 WHERE id <= last_id AND id >
start_id AND id IN failed_list`, then `SET scan_status = 1 WHERE id <=
last_id AND id > start_id AND scan_status = 2` (evaluated on the row as
left by the first update). -/
def markRecord (start_id last_id : Int) (failed_list : List Int) (r : ScanRecord) : ScanRecord :=
  let r1 :=
    if r.id ≤ last_id ∧ start_id < r.id ∧ r.id ∈ failed_list then
      { r with scan_status := 3 } else r
  if r1.id ≤ last_id ∧ start_id < r1.id ∧ r1.scan_status = 2 then
    { r1 with scan_status := 1 } else r1

/-- The table after the two UPDATE statements of `mark_result`. -/
def markTable (s : QueueState) (last_id : Int) (failed_list : List Int) : List ScanRecord :=
  s.table.map (markRecord s.start_id last_id failed_list)

/-- The cursor after `mark_result`: `SELECT MAX(id) WHERE id > start_id
AND scan_status = 1` over the updated table; the cursor moves only when
the result is not NULL. -/
def markStart (s : QueueState) (last_id : Int) (failed_list : List Int) : Int :=
  match listMax (((markTable s last_id failed_list).filter
      (fun r => s.start_id < r.id ∧ r.scan_status = 1)).map (·.id)) with
  | none => s.start_id
  | some m => m

/-- Embeds `NewRequestModel.mark_result`.  When `last_id > start_id` the
two UPDATE statements run in source order and then the `MAX(id)` query
may advance `start_id`; otherwise the call does nothing. -/
def mark_result (s : QueueState) (last_id : Int) (failed_list : List Int) : QueueState :=
  if s.start_id < last_id then
    { table := markTable s last_id failed_list, start_id := markStart s last_id failed_list }
  else s

/-- One call into the queue, for stating lifetime properties. -/
inductive QueueOp where
  | putOp (data data_hash : String) (now : Int)
  | getNewScan (count : Nat)
  | markResult (last_id : Int) (failed_list : List Int)
  | resetUnscanned
deriving Repr, DecidableEq

/-- Whether an operation is the startup-recovery reset. -/
def QueueOp.isReset : QueueOp → Bool
  | .resetUnscanned => true
  | _ => false

/-- Apply one queue operation to the state (discarding returned data). -/
def applyOp (s : QueueState) : QueueOp → QueueState
  | .putOp d h now => (put s d h now).1
  | .getNewScan count => (get_new_scan s count).1
  | .markResult last failed => mark_result s last failed
  | .resetUnscanned => { s with table := reset_unscanned_item s.table }

/-- Apply a sequence of queue operations in order. -/
def applyOps (s : QueueState) (ops : List QueueOp) : QueueState :=
  ops.foldl applyOp s

/-- The cursor invariant of the spec: every record at or below `start_id`
is SCANNED (1) or FAILED (3). -/
def cursorInvariant (s : QueueState) : Prop :=
  ∀ r ∈ s.table, r.id ≤ s.start_id → r.scan_status = 1 ∨ r.scan_status = 3

instance (s : QueueState) : Decidable (cursorInvariant s) :=
  inferInstanceAs (Decidable (∀ r ∈ s.table, _ → _))

/-- An HTTP response as assembled by `Session.send_request` on a
successful attempt: `{"status": ..., "headers": ..., "body": ...}` with
the body fully read before the dict is built. -/
structure HttpResponse where
  status : Int
  headers : List (String × String)
  body : String
deriving Repr, DecidableEq

/-- Modelled from the spec and the aiohttp collaborator: the HTTP verb
methods that `aiohttp.ClientSession` exposes, i.e. the names for which
the `getattr(self.session, request_data_ins.get_method())` dispatch in
`Session.send_request` yields a request coroutine ("The method is
dispatched by name; unknown methods must surface as an error before any
network I/O"). -/
def session_http_methods : List String :=
  ["get", "post", "put", "delete", "head", "options", "patch"]

/-- Outcome of `Session.send_request`: a response, the
`exceptions.ScanRequestFailed` raised after the retries are exhausted, or
the error surfaced synchronously by the method dispatch when the session
has no such verb (the spec's `UnknownHTTPMethod` kind).  Each of the
first two carries the number of attempts that were issued. -/
inductive SendResult where
  | ok (r : HttpResponse) (attempts : Nat)
  | scanRequestFailed (attempts : Nat)
  | unknownHTTPMethod
deriving Repr, DecidableEq

/-- Number of HTTP attempts the session issued for this outcome. -/
def SendResult.attemptsMade : SendResult → Nat
  | .ok _ n => n
  | .scanRequestFailed n => n
  | .unknownHTTPMethod => 0

/-- The retry loop of `Session.send_request`: `while retry_times >= 0`,
one attempt per iteration, breaking with the response on success and
decrementing the counter after a 1-second sleep on any exception.
`attempt i` is the oracle outcome of the `i`-th attempt (`none` for a
timeout, transport error or other exception); `fuel` is the number of
loop iterations the counter still allows (`retry_times + 1` initially).
Returns the captured response, if any, together with the number of
attempts issued. -/
def sendLoop (attempt : Nat → Option HttpResponse) : Nat → Nat → Option HttpResponse × Nat
  | _, 0 => (none, 0)
  | i, fuel + 1 =>
    match attempt i with
    | some r => (some r, 1)
    | none =>
      let rest := sendLoop attempt (i + 1) fuel
      (rest.1, rest.2 + 1)

/-- Embeds `Session.send_request`: the `getattr` dispatch on the method
name happens first, before the loop; the loop makes `retry_times + 1`
attempts (the `while retry_times >= 0` counter is decremented only on
failure), exits with the response as soon as an attempt succeeds (the
counter is then still `>= 0`, so the response is returned) and raises
`exceptions.ScanRequestFailed` once the counter goes negative. -/
def send_request (method : String) (attempt : Nat → Option HttpResponse)
    (retry_times : Int) : SendResult :=
  if method ∈ session_http_methods then
    if retry_times < 0 then .scanRequestFailed 0
    else
      match sendLoop attempt 0 (retry_times.toNat + 1) with
      | (some r, n) => .ok r n
      | (none, n) => .scanRequestFailed n
  else .unknownHTTPMethod

/-- The ways `peewee_async.create_object` can fail inside
`NewRequestModel.put`: peewee raises `IntegrityError` for any violated
integrity constraint (the class covers more than the unique index), and
other driver failures surface as other exception classes. -/
inductive IntegrityKind where
  | uniqueViolation
  | notNullViolation
  | foreignKeyViolation
  | checkViolation
deriving Repr, DecidableEq

/-- Non-integrity driver exception classes that can escape the insert. -/
inductive DriverFailure where
  | operationalError
  | programmingError
  | interfaceError
  | dataError
  | internalError
deriving Repr, DecidableEq

/-- Outcome of the insert attempted by `NewRequestModel.put`. -/
inductive InsertOutcome where
  | inserted
  | integrityError (kind : IntegrityKind)
  | driverError (e : DriverFailure)
deriving Repr, DecidableEq

/-- The single error kind the queue raises, `exceptions.DatabaseError`. -/
inductive QueueError where
  | databaseError
deriving Repr, DecidableEq

/-- Embeds the exception routing of `NewRequestModel.put` (its
`try`/`except` clauses, in source order): `except peewee.IntegrityError`
returns `False`; the following `except Exception` logs and raises
`exceptions.DatabaseError`; the `else` branch returns `True`. -/
def put_exception_policy : InsertOutcome → Except QueueError Bool
  | .inserted => .ok true
  | .integrityError _ => .ok false
  | .driverError _ => .error .databaseError

/-- The four status codes the queue ever stores. -/
def statusOK (n : Int) : Prop := n = 0 ∨ n = 1 ∨ n = 2 ∨ n = 3

/-- Inductive invariant of a queue over a table it populated itself:
ids are unique, the cursor never passes the largest id, rows at or below
the cursor are finished, unscanned rows sit above every dispatched or
scanned row, and in-progress rows sit above every scanned row. -/
structure Inv (s : QueueState) : Prop where
  nodup_ids : (s.table.map (·.id)).Nodup
  cursor_le : s.start_id ≤ maxIdFold s.table
  below_done : ∀ r ∈ s.table, r.id ≤ s.start_id → r.scan_status = 1 ∨ r.scan_status = 3
  unscanned_top : ∀ r ∈ s.table, r.scan_status = 0 →
    ∀ r' ∈ s.table, (r'.scan_status = 1 ∨ r'.scan_status = 2) → r'.id < r.id
  prog_above_done : ∀ r ∈ s.table, r.scan_status = 2 →
    ∀ r' ∈ s.table, r'.scan_status = 1 → r'.id < r.id
  status_ok : ∀ r ∈ s.table, statusOK r.scan_status

/-- A table left behind by a previous process lifetime: ids 1 and 2 were
reported failed with `mark_result(3, [1, 2])` and id 3 was scanned, so
the rows read FAILED, FAILED, SCANNED. -/
def restartTable : List ScanRecord :=
  [⟨1, "d1", "a", 3, 10⟩, ⟨2, "d2", "b", 3, 11⟩, ⟨3, "d3", "c", 1, 12⟩]

/-- The S3 scenario state: ids 1–4 inserted and all dispatched
(IN_PROGRESS), cursor at 0. -/
def s3State : QueueState :=
  ⟨[⟨1, "d1", "h1", 2, 0⟩, ⟨2, "d2", "h2", 2, 0⟩,
    ⟨3, "d3", "h3", 2, 0⟩, ⟨4, "d4", "h4", 2, 0⟩], 0⟩

/-- The fields of a record other than `scan_status` agree. -/
def frameEq (r r' : ScanRecord) : Prop :=
  r'.id = r.id ∧ r'.data = r.data ∧ r'.data_hash = r.data_hash ∧ r'.time = r.time

/-- The S5 transport stub: the first two attempts raise a timeout, the
third returns HTTP 200. -/
def s5Attempt : Nat → Option HttpResponse :=
  fun i => if i < 2 then none else some ⟨200, [], ""⟩

/-! ### Helper lemmas about the aggregate functions -/

lemma listMin_eq_none {l : List Int} : listMin l = none ↔ l = [] := by
  cases l with
  | nil => simp [listMin]
  | cons x xs =>
    simp only [listMin]
    cases listMin xs <;> simp

lemma listMin_spec : ∀ {l : List Int} {m : Int}, listMin l = some m → m ∈ l ∧ ∀ x ∈ l, m ≤ x := by
  intro l
  induction l with
  | nil => intro m h; simp [listMin] at h
  | cons x xs ih =>
    intro m h
    simp only [listMin] at h
    cases hxs : listMin xs with
    | none =>
      rw [hxs] at h
      have hnil : xs = [] := listMin_eq_none.mp hxs
      subst hnil
      simp at h
      subst h
      simp
    | some m' =>
      rw [hxs] at h
      obtain ⟨hmem, hle⟩ := ih hxs
      have hm : m = min x m' := by simpa using h.symm
      subst hm
      constructor
      · rcases min_choice x m' with hc | hc
        · rw [hc]; exact List.mem_cons_self x xs
        · rw [hc]; exact List.mem_cons_of_mem x hmem
      · intro y hy
        rcases List.mem_cons.mp hy with hy | hy
        · subst hy; exact min_le_left _ _
        · exact le_trans (min_le_right _ _) (hle y hy)

lemma listMax_eq_none {l : List Int} : listMax l = none ↔ l = [] := by
  cases l with
  | nil => simp [listMax]
  | cons x xs =>
    simp only [listMax]
    cases listMax xs <;> simp

lemma listMax_spec : ∀ {l : List Int} {m : Int}, listMax l = some m → m ∈ l ∧ ∀ x ∈ l, x ≤ m := by
  intro l
  induction l with
  | nil => intro m h; simp [listMax] at h
  | cons x xs ih =>
    intro m h
    simp only [listMax] at h
    cases hxs : listMax xs with
    | none =>
      rw [hxs] at h
      have hnil : xs = [] := listMax_eq_none.mp hxs
      subst hnil
      simp at h
      subst h
      simp
    | some m' =>
      rw [hxs] at h
      obtain ⟨hmem, hle⟩ := ih hxs
      have hm : m = max x m' := by simpa using h.symm
      subst hm
      constructor
      · rcases max_choice x m' with hc | hc
        · rw [hc]; exact List.mem_cons_self x xs
        · rw [hc]; exact List.mem_cons_of_mem x hmem
      · intro y hy
        rcases List.mem_cons.mp hy with hy | hy
        · subst hy; exact le_max_left _ _
        · exact le_trans (hle y hy) (le_max_right _ _)

lemma le_foldl_max : ∀ (l : List Int) (a : Int), a ≤ l.foldl max a := by
  intro l
  induction l with
  | nil => intro a; simp
  | cons x xs ih =>
    intro a
    simpa using le_trans (le_max_left a x) (ih (max a x))

lemma mem_le_foldl_max : ∀ (l : List Int) (a x : Int), x ∈ l → x ≤ l.foldl max a := by
  intro l
  induction l with
  | nil => intro a x hx; simp at hx
  | cons y ys ih =>
    intro a x hx
    rcases List.mem_cons.mp hx with hx | hx
    · subst hx
      simpa using le_trans (le_max_right a x) (le_foldl_max ys (max a x))
    · simpa using ih (max a y) x hx

lemma mem_le_maxIdFold {r : ScanRecord} {t : List ScanRecord} (h : r ∈ t) :
    r.id ≤ maxIdFold t :=
  mem_le_foldl_max _ 0 r.id (List.mem_map_of_mem (·.id) h)

lemma maxIdFold_nonneg (t : List ScanRecord) : 0 ≤ maxIdFold t :=
  le_foldl_max _ 0

lemma maxIdFold_append (t : List ScanRecord) (r : ScanRecord) :
    maxIdFold (t ++ [r]) = max (maxIdFold t) r.id := by
  simp [maxIdFold, List.foldl_append]

lemma maxIdFold_congr_ids {t t' : List ScanRecord}
    (h : t.map (·.id) = t'.map (·.id)) : maxIdFold t = maxIdFold t' := by
  simp [maxIdFold, h]

/-! ### Helper lemmas about sorted lists and `Forall₂` -/

lemma rel_of_mem_take_drop {α : Type} {r : α → α → Prop} {l : List α}
    (hs : List.Pairwise r l) (n : Nat) {a b : α}
    (ha : a ∈ l.take n) (hb : b ∈ l.drop n) : r a b := by
  rw [← List.take_append_drop n l] at hs
  exact (List.pairwise_append.mp hs).2.2 a ha b hb

lemma forall₂_map_self {α β : Type} {R : α → β → Prop} {l : List α} {f : α → β}
    (h : ∀ a ∈ l, R a (f a)) : List.Forall₂ R l (l.map f) := by
  induction l with
  | nil => exact .nil
  | cons x xs ih =>
    exact .cons (h x (List.mem_cons_self x xs))
      (ih fun a ha => h a (List.mem_cons_of_mem x ha))

/-! ### Structural lemmas about `get_new_scan` -/

lemma claimRecords_spec {s : QueueState} {count : Nat} {r : ScanRecord}
    (hr : r ∈ claimRecords s count) :
    r ∈ s.table ∧ r.scan_status = 0 ∧ s.start_id < r.id := by
  have hsort : r ∈ List.insertionSort byId
      (s.table.filter (fun r => r.scan_status = 0 ∧ s.start_id < r.id)) :=
    List.take_subset _ _ hr
  have hfil := (List.perm_insertionSort byId _).mem_iff.mp hsort
  have hmem := List.mem_filter.mp hfil
  refine ⟨hmem.1, ?_⟩
  have := hmem.2
  simpa using this

lemma claimRecords_length_le (s : QueueState) (count : Nat) :
    (claimRecords s count).length ≤ count := by
  simp [claimRecords, List.length_take]

lemma claimRecords_lowest {s : QueueState} {count : Nat} {r r' : ScanRecord}
    (hnd : (s.table.map (·.id)).Nodup)
    (hr : r ∈ claimRecords s count) (hr' : r' ∈ s.table)
    (h0 : r'.scan_status = 0) (hgt : s.start_id < r'.id)
    (hnc : r' ∉ claimRecords s count) : r.id < r'.id := by
  set sorted := List.insertionSort byId
    (s.table.filter (fun r => r.scan_status = 0 ∧ s.start_id < r.id)) with hsorted
  have hpair : List.Pairwise byId sorted := List.sorted_insertionSort byId _
  have hperm : sorted.Perm (s.table.filter (fun r => r.scan_status = 0 ∧ s.start_id < r.id)) :=
    List.perm_insertionSort byId _
  have hr'fil : r' ∈ s.table.filter (fun r => r.scan_status = 0 ∧ s.start_id < r.id) :=
    List.mem_filter.mpr ⟨hr', by simp [h0, hgt]⟩
  have hr'sort : r' ∈ sorted := hperm.mem_iff.mpr hr'fil
  have hr'split : r' ∈ sorted.take count ∨ r' ∈ sorted.drop count := by
    rw [← List.mem_append, List.take_append_drop]
    exact hr'sort
  have hr'drop : r' ∈ sorted.drop count := by
    rcases hr'split with h | h
    · exact absurd h hnc
    · exact h
  have hle : r.id ≤ r'.id := rel_of_mem_take_drop hpair count hr hr'drop
  have hnodup : sorted.Nodup := by
    have ht : s.table.Nodup := List.Nodup.of_map _ hnd
    have hf : (s.table.filter (fun r => r.scan_status = 0 ∧ s.start_id < r.id)).Nodup :=
      (List.filter_sublist _).nodup ht
    exact hperm.symm.nodup hf
  have hne : r.id ≠ r'.id := by
    intro heq
    have hrt : r ∈ s.table := (claimRecords_spec hr).1
    have : r = r' := List.inj_on_of_nodup_map hnd hrt hr' heq
    subst this
    have hnodup' : (sorted.take count ++ sorted.drop count).Nodup := by
      rw [List.take_append_drop]; exact hnodup
    exact ((List.nodup_append.mp hnodup').2.2 hr) hr'drop
  exact lt_of_le_of_ne hle hne

lemma claimApply_id (s : QueueState) (count : Nat) (r : ScanRecord) :
    (claimApply s count r).id = r.id := by
  unfold claimApply
  split <;> rfl

lemma claimApply_claimed {s : QueueState} {count : Nat} {r : ScanRecord}
    (hc : r ∈ claimRecords s count) :
    claimApply s count r = { r with scan_status := 2 } := if_pos hc

lemma claimApply_not_claimed {s : QueueState} {count : Nat} {r : ScanRecord}
    (hc : r ∉ claimRecords s count) : claimApply s count r = r := if_neg hc

lemma claimUpdate_map_id (s : QueueState) (count : Nat) :
    (claimUpdate s count).map (·.id) = s.table.map (·.id) := by
  unfold claimUpdate
  rw [List.map_map]
  apply List.map_congr_left
  intro r _
  exact claimApply_id s count r

lemma get_state_eq (s : QueueState) (count : Nat) :
    (get_new_scan s count).1 = { s with table := claimUpdate s count } := by
  unfold get_new_scan
  cases hf : s.table.find? (fun r => s.start_id < r.id ∧ r.scan_status = 0) with
  | none =>
    have hfil : s.table.filter (fun r => r.scan_status = 0 ∧ s.start_id < r.id) = [] := by
      rw [List.filter_eq_nil_iff]
      intro r hr
      have h := List.find?_eq_none.mp hf r hr
      simp only [decide_eq_true_eq] at h ⊢
      tauto
    have hcl : claimRecords s count = [] := by
      unfold claimRecords
      rw [hfil]
      simp
    have hup : claimUpdate s count = s.table := by
      unfold claimUpdate
      have hnone : ∀ r ∈ s.table, claimApply s count r = r := fun r _ =>
        claimApply_not_claimed (by rw [hcl]; exact List.not_mem_nil r)
      rw [List.map_congr_left hnone, List.map_id']
    simp [hup]
  | some r0 =>
    by_cases h0 : (claimRecords s count).length = 0 <;> simp [h0]

/-! ### Structural lemmas about `mark_result` -/

lemma markRecord_id (st last : Int) (failed : List Int) (r : ScanRecord) :
    (markRecord st last failed r).id = r.id := by
  unfold markRecord
  dsimp only
  split <;> split <;> rfl

lemma markRecord_cases (st last : Int) (failed : List Int) (r : ScanRecord) :
    (r.id ≤ last ∧ st < r.id ∧ r.id ∈ failed ∧
      markRecord st last failed r = { r with scan_status := 3 }) ∨
    ((¬(r.id ≤ last ∧ st < r.id ∧ r.id ∈ failed)) ∧
      (r.id ≤ last ∧ st < r.id ∧ r.scan_status = 2) ∧
      markRecord st last failed r = { r with scan_status := 1 }) ∨
    ((¬(r.id ≤ last ∧ st < r.id ∧ r.id ∈ failed)) ∧
      (¬(r.id ≤ last ∧ st < r.id ∧ r.scan_status = 2)) ∧
      markRecord st last failed r = r) := by
  by_cases h1 : r.id ≤ last ∧ st < r.id ∧ r.id ∈ failed
  · left
    refine ⟨h1.1, h1.2.1, h1.2.2, ?_⟩
    unfold markRecord
    dsimp only
    rw [if_pos h1, if_neg (by simp)]
  · by_cases h2 : r.id ≤ last ∧ st < r.id ∧ r.scan_status = 2
    · right; left
      refine ⟨h1, h2, ?_⟩
      unfold markRecord
      dsimp only
      rw [if_neg h1, if_pos h2]
    · right; right
      refine ⟨h1, h2, ?_⟩
      unfold markRecord
      dsimp only
      rw [if_neg h1, if_neg h2]

lemma markTable_map_id (s : QueueState) (last : Int) (failed : List Int) :
    (markTable s last failed).map (·.id) = s.table.map (·.id) := by
  unfold markTable
  rw [List.map_map]
  apply List.map_congr_left
  intro r _
  exact markRecord_id s.start_id last failed r

lemma markStart_cases (s : QueueState) (last : Int) (failed : List Int) :
    (markStart s last failed = s.start_id ∧
      ∀ r ∈ markTable s last failed, s.start_id < r.id → r.scan_status ≠ 1) ∨
    (∃ r ∈ markTable s last failed, s.start_id < r.id ∧ r.scan_status = 1 ∧
      markStart s last failed = r.id ∧
      ∀ r' ∈ markTable s last failed, s.start_id < r'.id → r'.scan_status = 1 →
        r'.id ≤ r.id) := by
  cases hmax : listMax (((markTable s last failed).filter
      (fun r => s.start_id < r.id ∧ r.scan_status = 1)).map (·.id)) with
  | none =>
    left
    constructor
    · unfold markStart
      rw [hmax]
    · intro r hr hlt h1
      have hfil : ((markTable s last failed).filter
          (fun r => s.start_id < r.id ∧ r.scan_status = 1)) = [] := by
        have := listMax_eq_none.mp hmax
        exact List.map_eq_nil_iff.mp this
      have := List.filter_eq_nil_iff.mp hfil r hr
      simp only [decide_eq_true_eq] at this
      exact this ⟨hlt, h1⟩
  | some m =>
    right
    obtain ⟨hmem, hub⟩ := listMax_spec hmax
    obtain ⟨r, hrfil, hrid⟩ := List.mem_map.mp hmem
    have hrmem := List.mem_filter.mp hrfil
    have hrprop : s.start_id < r.id ∧ r.scan_status = 1 := by
      have := hrmem.2
      simpa using this
    refine ⟨r, hrmem.1, hrprop.1, hrprop.2, ?_, ?_⟩
    · unfold markStart
      rw [hmax, hrid]
    · intro r' hr' hlt' h1'
      have : r'.id ∈ ((markTable s last failed).filter
          (fun r => s.start_id < r.id ∧ r.scan_status = 1)).map (·.id) :=
        List.mem_map_of_mem _ (List.mem_filter.mpr ⟨hr', by simp [hlt', h1']⟩)
      rw [← hrid] at hub
      exact hub _ this

/-! ### The inductive invariant for states reachable from an empty table -/

lemma inv_empty : Inv ⟨[], 0⟩ := by
  refine ⟨?_, ?_, ?_, ?_, ?_, ?_⟩ <;> simp [maxIdFold]

lemma inv_put (s : QueueState) (d h : String) (now : Int) (hInv : Inv s) :
    Inv (put s d h now).1 := by
  unfold put
  split
  · exact hInv
  · set newr : ScanRecord := ⟨maxIdFold s.table + 1, d, h, 0, now⟩ with hnewr
    have hnid : newr.id = maxIdFold s.table + 1 := rfl
    have hnst : newr.scan_status = 0 := rfl
    show Inv { table := s.table ++ [newr], start_id := s.start_id }
    refine ⟨?_, ?_, ?_, ?_, ?_, ?_⟩
    · show ((s.table ++ [newr]).map (·.id)).Nodup
      rw [List.map_append]
      rw [List.nodup_append]
      refine ⟨hInv.nodup_ids, by simp, ?_⟩
      intro a ha hb
      obtain ⟨r, hr, hrid⟩ := List.mem_map.mp ha
      have h1 : a ≤ maxIdFold s.table := hrid ▸ mem_le_maxIdFold hr
      have h2 : a = maxIdFold s.table + 1 := by simpa using hb
      omega
    · show s.start_id ≤ maxIdFold (s.table ++ [newr])
      rw [maxIdFold_append]
      exact le_trans hInv.cursor_le (le_max_left _ _)
    · intro r hr hle
      rcases List.mem_append.mp hr with hr | hr
      · exact hInv.below_done r hr hle
      · have : r = newr := by simpa using hr
        subst this
        have hc := hInv.cursor_le
        have hle' : newr.id ≤ s.start_id := hle
        rw [hnid] at hle'
        omega
    · intro r hr h0 r' hr' h12
      rcases List.mem_append.mp hr' with hr' | hr'
      · rcases List.mem_append.mp hr with hr | hr
        · exact hInv.unscanned_top r hr h0 r' hr' h12
        · have : r = newr := by simpa using hr
          subst this
          have := mem_le_maxIdFold hr'
          rw [hnid]
          omega
      · have : r' = newr := by simpa using hr'
        subst this
        rw [hnst] at h12
        omega
    · intro r hr h2 r' hr' h1
      rcases List.mem_append.mp hr with hr | hr
      · rcases List.mem_append.mp hr' with hr' | hr'
        · exact hInv.prog_above_done r hr h2 r' hr' h1
        · have : r' = newr := by simpa using hr'
          subst this
          rw [hnst] at h1
          omega
      · have : r = newr := by simpa using hr
        subst this
        rw [hnst] at h2
        omega
    · intro r hr
      rcases List.mem_append.mp hr with hr | hr
      · exact hInv.status_ok r hr
      · have : r = newr := by simpa using hr
        subst this
        exact Or.inl hnst

lemma inv_get (s : QueueState) (count : Nat) (hInv : Inv s) :
    Inv (get_new_scan s count).1 := by
  rw [get_state_eq]
  have hstart0 : ∀ r ∈ s.table, r.scan_status = 0 → s.start_id < r.id := by
    intro r hr h0
    by_contra hle
    push_neg at hle
    rcases hInv.below_done r hr hle with h | h <;> omega
  refine ⟨?_, ?_, ?_, ?_, ?_, ?_⟩
  · show ((claimUpdate s count).map (·.id)).Nodup
    rw [claimUpdate_map_id]
    exact hInv.nodup_ids
  · show s.start_id ≤ maxIdFold (claimUpdate s count)
    rw [maxIdFold_congr_ids (claimUpdate_map_id s count)]
    exact hInv.cursor_le
  · intro r₂ hr₂ hle
    obtain ⟨r, hr, hgr⟩ := List.mem_map.mp hr₂
    by_cases hc : r ∈ claimRecords s count
    · have hlt := (claimRecords_spec hc).2.2
      rw [claimApply_claimed hc] at hgr
      subst hgr
      have hle' : r.id ≤ s.start_id := hle
      omega
    · rw [claimApply_not_claimed hc] at hgr
      subst hgr
      exact hInv.below_done r hr hle
  · intro r₂ hr₂ h0 r₂' hr₂' h12
    obtain ⟨r, hr, hgr⟩ := List.mem_map.mp hr₂
    obtain ⟨r', hr', hgr'⟩ := List.mem_map.mp hr₂'
    by_cases hc : r ∈ claimRecords s count
    · rw [claimApply_claimed hc] at hgr
      subst hgr
      have h0' : (2 : Int) = 0 := h0
      exact absurd h0' (by decide)
    · rw [claimApply_not_claimed hc] at hgr
      subst hgr
      by_cases hc' : r' ∈ claimRecords s count
      · rw [claimApply_claimed hc'] at hgr'
        subst hgr'
        show r'.id < r.id
        exact claimRecords_lowest hInv.nodup_ids hc' hr h0 (hstart0 r hr h0) hc
      · rw [claimApply_not_claimed hc'] at hgr'
        subst hgr'
        exact hInv.unscanned_top r hr h0 r' hr' h12
  · intro r₂ hr₂ h2 r₂' hr₂' h1
    obtain ⟨r, hr, hgr⟩ := List.mem_map.mp hr₂
    obtain ⟨r', hr', hgr'⟩ := List.mem_map.mp hr₂'
    by_cases hc' : r' ∈ claimRecords s count
    · rw [claimApply_claimed hc'] at hgr'
      subst hgr'
      have h1' : (2 : Int) = 1 := h1
      exact absurd h1' (by decide)
    · rw [claimApply_not_claimed hc'] at hgr'
      subst hgr'
      by_cases hc : r ∈ claimRecords s count
      · rw [claimApply_claimed hc] at hgr
        subst hgr
        show r'.id < r.id
        exact hInv.unscanned_top r hr (claimRecords_spec hc).2.1 r' hr' (Or.inl h1)
      · rw [claimApply_not_claimed hc] at hgr
        subst hgr
        exact hInv.prog_above_done r hr h2 r' hr' h1
  · intro r₂ hr₂
    obtain ⟨r, hr, hgr⟩ := List.mem_map.mp hr₂
    by_cases hc : r ∈ claimRecords s count
    · rw [claimApply_claimed hc] at hgr
      subst hgr
      exact Or.inr (Or.inr (Or.inl rfl))
    · rw [claimApply_not_claimed hc] at hgr
      subst hgr
      exact hInv.status_ok r hr

lemma inv_mark (s : QueueState) (last : Int) (failed : List Int) (hInv : Inv s) :
    Inv (mark_result s last failed) := by
  unfold mark_result
  by_cases hlt : s.start_id < last
  · rw [if_pos hlt]
    have hstart2 : ∀ r ∈ s.table, r.scan_status = 2 → s.start_id < r.id := by
      intro r hr h2
      by_contra hle
      push_neg at hle
      rcases hInv.below_done r hr hle with h | h <;> omega
    have hscanned_pre : ∀ rp ∈ s.table,
        (markRecord s.start_id last failed rp).scan_status = 1 →
        rp.scan_status = 1 ∨ (rp.scan_status = 2 ∧ rp.id ≤ last) := by
      intro rp hrp h1
      rcases markRecord_cases s.start_id last failed rp with
        ⟨_, _, _, heq⟩ | ⟨_, hcond, heq⟩ | ⟨_, _, heq⟩
      · rw [heq] at h1
        have : (3 : Int) = 1 := h1
        exact absurd this (by decide)
      · exact Or.inr ⟨hcond.2.2, hcond.1⟩
      · rw [heq] at h1
        exact Or.inl h1
    refine ⟨?_, ?_, ?_, ?_, ?_, ?_⟩
    · show ((markTable s last failed).map (·.id)).Nodup
      rw [markTable_map_id]
      exact hInv.nodup_ids
    · show markStart s last failed ≤ maxIdFold (markTable s last failed)
      rcases markStart_cases s last failed with ⟨heq, _⟩ | ⟨r, hrmem, _, _, heq, _⟩
      · rw [heq, maxIdFold_congr_ids (markTable_map_id s last failed)]
        exact hInv.cursor_le
      · rw [heq]
        exact mem_le_maxIdFold hrmem
    · intro r₂ hr₂ hle
      obtain ⟨r, hr, hgr⟩ := List.mem_map.mp hr₂
      have hle' : r₂.id ≤ markStart s last failed := hle
      have hid : r₂.id = r.id := by rw [← hgr]; exact markRecord_id _ _ _ r
      rcases markStart_cases s last failed with ⟨heq, _⟩ | ⟨rm, hrm, hrmlt, hrm1, heq, _⟩
      · rw [heq] at hle'
        rcases markRecord_cases s.start_id last failed r with
          ⟨_, hlt2, _, _⟩ | ⟨_, hcond, _⟩ | ⟨_, _, heq3⟩
        · omega
        · have := hcond.2.1
          omega
        · rw [heq3] at hgr
          subst hgr
          exact hInv.below_done r hr (by omega)
      · rw [heq] at hle'
        by_cases hrle : r.id ≤ s.start_id
        · rcases markRecord_cases s.start_id last failed r with
            ⟨_, hlt2, _, _⟩ | ⟨_, hcond, _⟩ | ⟨_, _, heq3⟩
          · omega
          · have := hcond.2.1
            omega
          · rw [heq3] at hgr
            subst hgr
            exact hInv.below_done r hr hrle
        · push_neg at hrle
          obtain ⟨rmp, hrmp, hgrm⟩ := List.mem_map.mp hrm
          have hrmid : rm.id = rmp.id := by rw [← hgrm]; exact markRecord_id _ _ _ rmp
          have hrmpre : rmp.scan_status = 1 ∨ (rmp.scan_status = 2 ∧ rmp.id ≤ last) := by
            apply hscanned_pre rmp hrmp
            rw [hgrm]
            exact hrm1
          rcases markRecord_cases s.start_id last failed r with
            ⟨_, _, _, heq3⟩ | ⟨_, _, heq3⟩ | ⟨hnf, hnp, heq3⟩
          · rw [heq3] at hgr
            subst hgr
            exact Or.inr rfl
          · rw [heq3] at hgr
            subst hgr
            exact Or.inl rfl
          · rw [heq3] at hgr
            subst hgr
            rcases hInv.status_ok r hr with h0 | h1 | h2 | h3
            · rcases hrmpre with hp | hp
              · have := hInv.unscanned_top r hr h0 rmp hrmp (Or.inl hp)
                omega
              · have := hInv.unscanned_top r hr h0 rmp hrmp (Or.inr hp.1)
                omega
            · exact Or.inl h1
            · have hlast : last < r.id := by
                by_contra hll
                push_neg at hll
                exact hnp ⟨hll, hrle, h2⟩
              rcases hrmpre with hp | hp
              · have := hInv.prog_above_done r hr h2 rmp hrmp hp
                omega
              · obtain ⟨_, hple⟩ := hp
                omega
            · exact Or.inr h3
    · intro r₂ hr₂ h0 r₂' hr₂' h12
      obtain ⟨r, hr, hgr⟩ := List.mem_map.mp hr₂
      obtain ⟨r', hr', hgr'⟩ := List.mem_map.mp hr₂'
      rcases markRecord_cases s.start_id last failed r with
        ⟨_, _, _, heq3⟩ | ⟨_, _, heq3⟩ | ⟨_, _, heq3⟩
      · rw [heq3] at hgr
        subst hgr
        have : (3 : Int) = 0 := h0
        exact absurd this (by decide)
      · rw [heq3] at hgr
        subst hgr
        have : (1 : Int) = 0 := h0
        exact absurd this (by decide)
      · rw [heq3] at hgr
        subst hgr
        rcases markRecord_cases s.start_id last failed r' with
          ⟨_, _, _, heq4⟩ | ⟨_, hcond, heq4⟩ | ⟨_, _, heq4⟩
        · rw [heq4] at hgr'
          subst hgr'
          rcases h12 with hx | hx
          · have : (3 : Int) = 1 := hx
            exact absurd this (by decide)
          · have : (3 : Int) = 2 := hx
            exact absurd this (by decide)
        · rw [heq4] at hgr'
          subst hgr'
          show r'.id < r.id
          exact hInv.unscanned_top r hr h0 r' hr' (Or.inr hcond.2.2)
        · rw [heq4] at hgr'
          subst hgr'
          exact hInv.unscanned_top r hr h0 r' hr' h12
    · intro r₂ hr₂ h2 r₂' hr₂' h1
      obtain ⟨r, hr, hgr⟩ := List.mem_map.mp hr₂
      obtain ⟨r', hr', hgr'⟩ := List.mem_map.mp hr₂'
      rcases markRecord_cases s.start_id last failed r with
        ⟨_, _, _, heq3⟩ | ⟨_, _, heq3⟩ | ⟨_, hnp, heq3⟩
      · rw [heq3] at hgr
        subst hgr
        have : (3 : Int) = 2 := h2
        exact absurd this (by decide)
      · rw [heq3] at hgr
        subst hgr
        have : (1 : Int) = 2 := h2
        exact absurd this (by decide)
      · rw [heq3] at hgr
        subst hgr
        have h2' : r.scan_status = 2 := h2
        have hrgt : s.start_id < r.id := hstart2 r hr h2'
        have hlast : last < r.id := by
          by_contra hll
          push_neg at hll
          exact hnp ⟨hll, hrgt, h2'⟩
        rcases markRecord_cases s.start_id last failed r' with
          ⟨_, _, _, heq4⟩ | ⟨_, hcond, heq4⟩ | ⟨_, _, heq4⟩
        · rw [heq4] at hgr'
          subst hgr'
          have : (3 : Int) = 1 := h1
          exact absurd this (by decide)
        · rw [heq4] at hgr'
          subst hgr'
          show r'.id < r.id
          have := hcond.1
          omega
        · rw [heq4] at hgr'
          subst hgr'
          exact hInv.prog_above_done r hr h2' r' hr' h1
    · intro r₂ hr₂
      obtain ⟨r, hr, hgr⟩ := List.mem_map.mp hr₂
      rcases markRecord_cases s.start_id last failed r with
        ⟨_, _, _, heq3⟩ | ⟨_, _, heq3⟩ | ⟨_, _, heq3⟩
      · rw [heq3] at hgr
        subst hgr
        exact Or.inr (Or.inr (Or.inr rfl))
      · rw [heq3] at hgr
        subst hgr
        exact Or.inr (Or.inl rfl)
      · rw [heq3] at hgr
        subst hgr
        exact hInv.status_ok r hr
  · rw [if_neg hlt]
    exact hInv

lemma inv_applyOp (s : QueueState) (op : QueueOp) (hInv : Inv s)
    (hop : op.isReset = false) : Inv (applyOp s op) := by
  cases op with
  | putOp d h now => exact inv_put s d h now hInv
  | getNewScan count => exact inv_get s count hInv
  | markResult last failed => exact inv_mark s last failed hInv
  | resetUnscanned => simp [QueueOp.isReset] at hop

lemma inv_applyOps : ∀ (ops : List QueueOp) (s : QueueState), Inv s →
    (∀ op ∈ ops, op.isReset = false) → Inv (applyOps s ops) := by
  intro ops
  induction ops with
  | nil =>
    intro s hInv _
    exact hInv
  | cons op ops ih =>
    intro s hInv hops
    have h1 : Inv (applyOp s op) :=
      inv_applyOp s op hInv (hops op (List.mem_cons_self _ _))
    exact ih (applyOp s op) h1 (fun o ho => hops o (List.mem_cons_of_mem _ ho))

/-! ### The cursor invariant immediately after startup -/

lemma resetApply_id (r : ScanRecord) : (resetApply r).id = r.id := by
  unfold resetApply
  split <;> rfl

lemma resetApply_scanned {r : ScanRecord} (h : r.scan_status = 1) : resetApply r = r := by
  unfold resetApply
  rw [if_neg (by omega)]

lemma cursorInvariant_startup (T : List ScanRecord) : cursorInvariant (startup T) := by
  intro r' hr' hle
  have hr'' : r' ∈ T.map resetApply := hr'
  obtain ⟨r, hr, hgr⟩ := List.mem_map.mp hr''
  have hle' : r'.id ≤ init_start_id T := hle
  have hid : r'.id = r.id := by rw [← hgr]; exact resetApply_id r
  cases hmin : listMin ((T.filter (fun r => r.scan_status ≠ 1)).map (·.id)) with
  | none =>
    have hfil : T.filter (fun r => r.scan_status ≠ 1) = [] :=
      List.map_eq_nil_iff.mp (listMin_eq_none.mp hmin)
    have h1 : r.scan_status = 1 := by
      have := List.filter_eq_nil_iff.mp hfil r hr
      simpa using this
    left
    rw [← hgr, resetApply_scanned h1]
    exact h1
  | some m =>
    have hinit : init_start_id T = m - 1 := by
      unfold init_start_id
      rw [hmin]
    rw [hinit] at hle'
    have h1 : r.scan_status = 1 := by
      by_contra hne
      have hmem : r.id ∈ (T.filter (fun r => r.scan_status ≠ 1)).map (·.id) :=
        List.mem_map_of_mem _ (List.mem_filter.mpr ⟨hr, by simpa using hne⟩)
      have := (listMin_spec hmin).2 _ hmem
      omega
    left
    rw [← hgr, resetApply_scanned h1]
    exact h1

/-! ### Remaining lemmas about `start_id` movement -/

lemma put_start_id (s : QueueState) (d h : String) (now : Int) :
    (put s d h now).1.start_id = s.start_id := by
  unfold put
  split <;> rfl

lemma get_start_id (s : QueueState) (count : Nat) :
    (get_new_scan s count).1.start_id = s.start_id := by
  rw [get_state_eq]

lemma mark_result_start_cases (s : QueueState) (last : Int) (failed : List Int) :
    (mark_result s last failed).start_id = s.start_id ∨
    s.start_id < (mark_result s last failed).start_id := by
  unfold mark_result
  by_cases hlt : s.start_id < last
  · rw [if_pos hlt]
    rcases markStart_cases s last failed with ⟨heq, _⟩ | ⟨r, _, hrlt, _, heq, _⟩
    · left
      exact heq
    · right
      show s.start_id < markStart s last failed
      rw [heq]
      exact hrlt
  · rw [if_neg hlt]
    left
    rfl

lemma applyOp_start_le (s : QueueState) (op : QueueOp) :
    s.start_id ≤ (applyOp s op).start_id := by
  cases op with
  | putOp d h now =>
    show s.start_id ≤ (put s d h now).1.start_id
    rw [put_start_id]
  | getNewScan count =>
    show s.start_id ≤ (get_new_scan s count).1.start_id
    rw [get_start_id]
  | markResult last failed =>
    show s.start_id ≤ (mark_result s last failed).start_id
    rcases mark_result_start_cases s last failed with h | h
    · rw [h]
    · exact le_of_lt h
  | resetUnscanned => exact le_refl _

lemma applyOps_start_le : ∀ (ops : List QueueOp) (s : QueueState),
    s.start_id ≤ (applyOps s ops).start_id := by
  intro ops
  induction ops with
  | nil =>
    intro s
    exact le_refl _
  | cons op ops ih =>
    intro s
    exact le_trans (applyOp_start_le s op) (ih (applyOp s op))

/-! ## The claims -/

/-- C4 (counterexample): from construction over `restartTable` (the
startup reset re-enqueues the two FAILED rows as UNSCANNED and
`start_id` becomes 0), dispatching one record with `get_new_scan(1)` and
completing it with `mark_result(1, [])` advances `start_id` to 3 — the
`MAX(id) WHERE scan_status = 1` query sees the old SCANNED row at id 3 —
while id 2 is still UNSCANNED, violating the claimed invariant at a
reachable state. -/
theorem C4_cursor_invariant_counterexample :
    ¬ cursorInvariant (applyOps (startup restartTable)
      [QueueOp.getNewScan 1, QueueOp.markResult 1 []]) := by
  decide

/-- C4 (amended): every record with id ≤ start_id has status SCANNED or
FAILED immediately after construction over any existing table, and at
every state reachable from construction over an empty table by `put`,
`get_new_scan` and `mark_result`; the invariant is however not preserved
from construction over an arbitrary existing table (see the
counterexample, where a restart re-enqueues FAILED rows below a SCANNED
row), nor by a mid-lifetime `reset_unscanned_item`. -/
theorem C4_cursor_invariant :
    (∀ T : List ScanRecord, cursorInvariant (startup T)) ∧
    (∀ ops : List QueueOp, (∀ op ∈ ops, op.isReset = false) →
      cursorInvariant (applyOps (startup []) ops)) := by
  constructor
  · exact cursorInvariant_startup
  · intro ops hops
    have heq : startup ([] : List ScanRecord) = ⟨[], 0⟩ := rfl
    have h0 : Inv (startup []) := by
      rw [heq]
      exact inv_empty
    exact (inv_applyOps ops (startup []) h0 hops).below_done

/-- Witness for C4: the amended theorem applied to a concrete reset-free
operation sequence. -/
theorem C4_cursor_invariant_witness :
    (∀ op ∈ [QueueOp.putOp "d" "h" 5, QueueOp.getNewScan 1, QueueOp.markResult 1 []],
      op.isReset = false) ∧
    cursorInvariant (applyOps (startup [])
      [QueueOp.putOp "d" "h" 5, QueueOp.getNewScan 1, QueueOp.markResult 1 []]) :=
  ⟨by decide, C4_cursor_invariant.2 _ (by decide)⟩

/-- C5: `start_id` is monotonically non-decreasing over any sequence of
queue operations; `put`, `get_new_scan` and `reset_unscanned_item` leave
it exactly unchanged, and `mark_result` either leaves it unchanged or
strictly increases it. -/
theorem C5_start_id_monotone :
    ∀ (s : QueueState) (ops : List QueueOp),
      s.start_id ≤ (applyOps s ops).start_id ∧
      (∀ d h now, (put s d h now).1.start_id = s.start_id) ∧
      (∀ count, (get_new_scan s count).1.start_id = s.start_id) ∧
      (applyOp s QueueOp.resetUnscanned).start_id = s.start_id ∧
      (∀ last failed, (mark_result s last failed).start_id = s.start_id ∨
        s.start_id < (mark_result s last failed).start_id) := by
  intro s ops
  exact ⟨applyOps_start_le ops s, fun d h now => put_start_id s d h now,
    fun count => get_start_id s count, rfl,
    fun last failed => mark_result_start_cases s last failed⟩

/-- C3: on construction over an existing table whose ids are positive (as
auto-increment ids are), `start_id` becomes `max(0, m - 1)` where `m` is
the least id with status ≠ SCANNED (0 when there is none), and the
startup `reset_unscanned_item` turns every IN_PROGRESS or FAILED record
into UNSCANNED (id preserved). -/
theorem C3_startup_state :
    ∀ T : List ScanRecord, (∀ r ∈ T, 1 ≤ r.id) →
      ((startup T).start_id =
        match listMin ((T.filter (fun r => r.scan_status ≠ 1)).map (·.id)) with
        | none => 0
        | some m => max 0 (m - 1)) ∧
      List.Forall₂ (fun r r' => r'.id = r.id ∧
          ((r.scan_status = 2 ∨ r.scan_status = 3) → r'.scan_status = 0))
        T (startup T).table := by
  intro T hids
  constructor
  · show init_start_id T = _
    cases hmin : listMin ((T.filter (fun r => r.scan_status ≠ 1)).map (·.id)) with
    | none =>
      unfold init_start_id
      rw [hmin]
    | some m =>
      unfold init_start_id
      rw [hmin]
      have h1m : 1 ≤ m := by
        obtain ⟨hmem, _⟩ := listMin_spec hmin
        obtain ⟨r, hrfil, hrid⟩ := List.mem_map.mp hmem
        have := hids r (List.mem_filter.mp hrfil).1
        omega
      show m - 1 = max 0 (m - 1)
      rw [max_eq_right (by omega : (0 : Int) ≤ m - 1)]
  · show List.Forall₂ _ T (T.map resetApply)
    apply forall₂_map_self
    intro r _
    refine ⟨resetApply_id r, ?_⟩
    intro h23
    unfold resetApply
    rw [if_pos (by rcases h23 with h | h <;> omega)]

/-- Witness for C3: the theorem applied to the concrete `restartTable`. -/
theorem C3_startup_state_witness :
    (∀ r ∈ restartTable, 1 ≤ r.id) ∧
    ((startup restartTable).start_id =
      match listMin ((restartTable.filter (fun r => r.scan_status ≠ 1)).map (·.id)) with
      | none => 0
      | some m => max 0 (m - 1)) :=
  ⟨by decide, (C3_startup_state restartTable (by decide)).1⟩

/-- C1: for `mark_result(last_id, failed_ids)` with `last_id > start_id`,
every record with id in `failed_ids` and `start_id < id ≤ last_id` ends
FAILED, every IN_PROGRESS record in that range not in `failed_ids` ends
SCANNED, and `start_id` then advances to the maximum id > old `start_id`
with status SCANNED when one exists (and stays put otherwise); a call
with `last_id ≤ start_id` is a no-op; in scenario S3, `mark_result(4,
[3,4])` leaves ids 1,2 SCANNED, ids 3,4 FAILED and `start_id = 2`. -/
theorem C1_mark_result :
    ∀ (s : QueueState) (last : Int) (failed : List Int),
      s.start_id < last →
      (List.Forall₂ (fun r r' => r'.id = r.id ∧
          (r.id ∈ failed ∧ s.start_id < r.id ∧ r.id ≤ last → r'.scan_status = 3) ∧
          (r.scan_status = 2 ∧ s.start_id < r.id ∧ r.id ≤ last ∧ r.id ∉ failed →
            r'.scan_status = 1))
        s.table (mark_result s last failed).table) ∧
      ((∃ r ∈ (mark_result s last failed).table, s.start_id < r.id ∧ r.scan_status = 1) →
        s.start_id < (mark_result s last failed).start_id ∧
        (∃ r ∈ (mark_result s last failed).table,
          r.id = (mark_result s last failed).start_id ∧ r.scan_status = 1) ∧
        (∀ r ∈ (mark_result s last failed).table, s.start_id < r.id → r.scan_status = 1 →
          r.id ≤ (mark_result s last failed).start_id)) ∧
      ((∀ r ∈ (mark_result s last failed).table,
          s.start_id < r.id → r.scan_status ≠ 1) →
        (mark_result s last failed).start_id = s.start_id) ∧
      (∀ (s' : QueueState) (last' : Int) (failed' : List Int), last' ≤ s'.start_id →
        mark_result s' last' failed' = s') ∧
      (mark_result s3State 4 [3, 4] =
        ⟨[⟨1, "d1", "h1", 1, 0⟩, ⟨2, "d2", "h2", 1, 0⟩,
          ⟨3, "d3", "h3", 3, 0⟩, ⟨4, "d4", "h4", 3, 0⟩], 2⟩) := by
  intro s last failed hlt
  have hmr : mark_result s last failed =
      ⟨markTable s last failed, markStart s last failed⟩ := by
    unfold mark_result
    rw [if_pos hlt]
  rw [hmr]
  refine ⟨?_, ?_, ?_, ?_, ?_⟩
  · show List.Forall₂ _ s.table (markTable s last failed)
    apply forall₂_map_self
    intro r _
    refine ⟨markRecord_id _ _ _ r, ?_, ?_⟩
    · rintro ⟨hf, hgt, hle⟩
      rcases markRecord_cases s.start_id last failed r with
        ⟨_, _, _, heq⟩ | ⟨hn, _, _⟩ | ⟨hn, _, _⟩
      · rw [heq]
      · exact absurd ⟨hle, hgt, hf⟩ hn
      · exact absurd ⟨hle, hgt, hf⟩ hn
    · rintro ⟨h2, hgt, hle, hnf⟩
      rcases markRecord_cases s.start_id last failed r with
        ⟨_, _, hf, _⟩ | ⟨_, _, heq⟩ | ⟨_, hn2, _⟩
      · exact absurd hf hnf
      · rw [heq]
      · exact absurd ⟨hle, hgt, h2⟩ hn2
  · intro hex
    rcases markStart_cases s last failed with ⟨_, hnone⟩ | ⟨rm, hrm, hrmlt, hrm1, heq, hub⟩
    · obtain ⟨r, hr, hgt, h1⟩ := hex
      exact absurd h1 (hnone r hr hgt)
    · refine ⟨?_, ⟨rm, hrm, ?_, hrm1⟩, ?_⟩
      · show s.start_id < markStart s last failed
        rw [heq]
        exact hrmlt
      · show rm.id = markStart s last failed
        rw [heq]
      · intro r hr hgt h1
        show r.id ≤ markStart s last failed
        rw [heq]
        exact hub r hr hgt h1
  · intro hnone
    rcases markStart_cases s last failed with ⟨heq, _⟩ | ⟨rm, hrm, hrmlt, hrm1, _, _⟩
    · exact heq
    · exact absurd hrm1 (hnone rm hrm hrmlt)
  · intro s' last' failed' hle
    unfold mark_result
    rw [if_neg (by omega)]
  · decide

/-- Witness for C1: the theorem applied at the S3 scenario. -/
theorem C1_mark_result_witness :
    s3State.start_id < 4 ∧
    mark_result s3State 4 [3, 4] =
      ⟨[⟨1, "d1", "h1", 1, 0⟩, ⟨2, "d2", "h2", 1, 0⟩,
        ⟨3, "d3", "h3", 3, 0⟩, ⟨4, "d4", "h4", 3, 0⟩], 2⟩ :=
  ⟨by decide, (C1_mark_result s3State 4 [3, 4] (by decide)).2.2.2.2⟩

/-- C10: `get_new_scan`, `mark_result` and `reset_unscanned_item` change
only the `scan_status` column (and the in-memory cursor): they keep the
table length and every record's `id`, `data`, `data_hash` and `time`;
`put` only ever appends a fresh record (or does nothing), so no queue
operation deletes or rewrites an existing record. -/
theorem C10_frame_effects :
    ∀ (s : QueueState) (count : Nat) (last : Int) (failed : List Int)
      (d h : String) (now : Int),
      List.Forall₂ frameEq s.table (get_new_scan s count).1.table ∧
      List.Forall₂ frameEq s.table (mark_result s last failed).table ∧
      List.Forall₂ frameEq s.table (reset_unscanned_item s.table) ∧
      ((put s d h now).1.table = s.table ∨
        (put s d h now).1.table = s.table ++ [⟨maxIdFold s.table + 1, d, h, 0, now⟩]) := by
  intro s count last failed d h now
  refine ⟨?_, ?_, ?_, ?_⟩
  · rw [get_state_eq]
    show List.Forall₂ frameEq s.table (s.table.map (claimApply s count))
    apply forall₂_map_self
    intro r _
    unfold claimApply frameEq
    split <;> exact ⟨rfl, rfl, rfl, rfl⟩
  · unfold mark_result
    by_cases hlt : s.start_id < last
    · rw [if_pos hlt]
      show List.Forall₂ frameEq s.table (s.table.map (markRecord s.start_id last failed))
      apply forall₂_map_self
      intro r _
      rcases markRecord_cases s.start_id last failed r with
        ⟨_, _, _, heq⟩ | ⟨_, _, heq⟩ | ⟨_, _, heq⟩ <;>
        rw [heq] <;> exact ⟨rfl, rfl, rfl, rfl⟩
    · rw [if_neg hlt]
      exact List.forall₂_same.mpr fun r _ => ⟨rfl, rfl, rfl, rfl⟩
  · show List.Forall₂ frameEq s.table (s.table.map resetApply)
    apply forall₂_map_self
    intro r _
    unfold resetApply frameEq
    split <;> exact ⟨rfl, rfl, rfl, rfl⟩
  · unfold put
    split
    · left
      rfl
    · right
      rfl

/-- C2: `get_new_scan(count)` returns the empty list when no record with
id > start_id is UNSCANNED; otherwise it returns at most `count` items
with strictly increasing ids, all greater than `start_id`, and every
returned item corresponds to a record of the resulting table whose
status has been set to IN_PROGRESS.  The table's ids are assumed unique
(`id` is the primary key). -/
theorem C2_get_new_scan :
    ∀ (s : QueueState) (count : Nat),
      (s.table.map (·.id)).Nodup →
      ((∀ r ∈ s.table, ¬(s.start_id < r.id ∧ r.scan_status = 0)) →
        (get_new_scan s count).2 = []) ∧
      (get_new_scan s count).2.length ≤ count ∧
      List.Pairwise (fun a b : Int × String => a.1 < b.1) (get_new_scan s count).2 ∧
      (∀ x ∈ (get_new_scan s count).2, s.start_id < x.1 ∧
        ∃ r ∈ (get_new_scan s count).1.table,
          r.id = x.1 ∧ r.data = x.2 ∧ r.scan_status = 2) := by
  intro s count hnd
  cases hf : s.table.find? (fun r => s.start_id < r.id ∧ r.scan_status = 0) with
  | none =>
    have hres : (get_new_scan s count).2 = [] := by
      unfold get_new_scan
      rw [hf]
    rw [hres]
    exact ⟨fun _ => rfl, by simp, by simp, by simp⟩
  | some r0 =>
    have hr0mem := List.mem_of_find?_eq_some hf
    have hr0p : s.start_id < r0.id ∧ r0.scan_status = 0 := by
      have := List.find?_some hf
      simpa using this
    have hprobe : (∀ r ∈ s.table, ¬(s.start_id < r.id ∧ r.scan_status = 0)) →
        (get_new_scan s count).2 = [] :=
      fun hnone => absurd hr0p (hnone r0 hr0mem)
    by_cases h0 : (claimRecords s count).length = 0
    · have hres : (get_new_scan s count).2 = [] := by
        unfold get_new_scan
        rw [hf]
        dsimp only
        rw [if_pos h0]
      rw [hres]
      exact ⟨fun _ => rfl, by simp, by simp, by simp⟩
    · have hres : (get_new_scan s count).2 =
          (fetchRecords s count r0.id).map (fun r => (r.id, r.data)) := by
        unfold get_new_scan
        rw [hf]
        dsimp only
        rw [if_neg h0]
      have hstate : (get_new_scan s count).1.table = claimUpdate s count := by
        rw [get_state_eq]
      set sorted₂ := List.insertionSort byId
        ((claimUpdate s count).filter (fun r => r0.id ≤ r.id ∧ r.scan_status = 2))
        with hs2
      have hfet : fetchRecords s count r0.id =
          sorted₂.take (claimRecords s count).length := rfl
      have hsub : ∀ r ∈ fetchRecords s count r0.id,
          r ∈ claimUpdate s count ∧ r0.id ≤ r.id ∧ r.scan_status = 2 := by
        intro r hr
        rw [hfet] at hr
        have h1 : r ∈ sorted₂ := List.take_subset _ _ hr
        have h2 := (List.perm_insertionSort byId _).mem_iff.mp h1
        have h3 := List.mem_filter.mp h2
        refine ⟨h3.1, ?_⟩
        have := h3.2
        simpa using this
      refine ⟨hprobe, ?_, ?_, ?_⟩
      · rw [hres, List.length_map, hfet]
        refine le_trans ?_ (claimRecords_length_le s count)
        rw [List.length_take]
        exact min_le_left _ _
      · rw [hres]
        have hpair₂ : List.Pairwise byId sorted₂ := List.sorted_insertionSort byId _
        have hpairf : List.Pairwise byId (fetchRecords s count r0.id) := by
          rw [hfet]
          exact List.Pairwise.sublist (List.take_sublist _ _) hpair₂
        have hndup : ((fetchRecords s count r0.id).map (·.id)).Nodup := by
          have h1 : ((claimUpdate s count).map (·.id)).Nodup := by
            rw [claimUpdate_map_id]
            exact hnd
          have h2 : (((claimUpdate s count).filter
              (fun r => r0.id ≤ r.id ∧ r.scan_status = 2)).map (·.id)).Nodup :=
            (List.Sublist.map _ (List.filter_sublist _)).nodup h1
          have h3 : (sorted₂.map (·.id)).Nodup :=
            ((List.perm_insertionSort byId _).map (·.id)).symm.nodup h2
          rw [hfet]
          exact (List.Sublist.map _ (List.take_sublist _ _)).nodup h3
        have hpne : List.Pairwise (fun a b : ScanRecord => a.id ≠ b.id)
            (fetchRecords s count r0.id) := List.pairwise_map.mp hndup
        have hplt : List.Pairwise (fun a b : ScanRecord => a.id < b.id)
            (fetchRecords s count r0.id) :=
          (hpairf.and hpne).imp fun hab => lt_of_le_of_ne hab.1 hab.2
        exact List.pairwise_map.mpr hplt
      · rw [hres]
        intro x hx
        obtain ⟨r, hrf, hxe⟩ := List.mem_map.mp hx
        obtain ⟨hrc, hrge, hr2⟩ := hsub r hrf
        subst hxe
        constructor
        · show s.start_id < r.id
          have := hr0p.1
          omega
        · rw [hstate]
          exact ⟨r, hrc, rfl, rfl, hr2⟩

/-- Witness for C2: the theorem applied to the restart state (unique
ids), checking the dispatched batch concretely. -/
theorem C2_get_new_scan_witness :
    ((startup restartTable).table.map (·.id)).Nodup ∧
    (get_new_scan (startup restartTable) 2).2.length ≤ 2 :=
  ⟨by decide, (C2_get_new_scan (startup restartTable) 2 (by decide)).2.1⟩

/-- C6: inserting a record into a table that does not yet hold its hash
succeeds (`True`), inserting any record with the same `data_hash` again —
even with different payload — reports a duplicate (`False`), leaves the
table unchanged and the row count up by exactly one overall. -/
theorem C6_put_dedup :
    ∀ (s : QueueState) (d d' h : String) (now now' : Int),
      (∀ r ∈ s.table, r.data_hash ≠ h) →
      (put s d h now).2 = true ∧
      (put (put s d h now).1 d' h now').2 = false ∧
      (put (put s d h now).1 d' h now').1.table.length = s.table.length + 1 ∧
      (put (put s d h now).1 d' h now').1 = (put s d h now).1 := by
  intro s d d' h now now' hfresh
  have hany : s.table.any (fun r => r.data_hash = h) = false := by
    apply List.any_eq_false.mpr
    intro r hr
    simpa using hfresh r hr
  have h1 : put s d h now =
      ({ s with table := s.table ++ [⟨maxIdFold s.table + 1, d, h, 0, now⟩] }, true) := by
    unfold put
    rw [if_neg (by rw [hany]; exact Bool.false_ne_true)]
  have hmem : (⟨maxIdFold s.table + 1, d, h, 0, now⟩ : ScanRecord) ∈
      (put s d h now).1.table := by
    rw [h1]
    simp
  have hany2 : (put s d h now).1.table.any (fun r => r.data_hash = h) = true :=
    List.any_eq_true.mpr ⟨_, hmem, by simp⟩
  set p1 := (put s d h now).1 with hp1
  have h2 : put p1 d' h now' = (p1, false) := by
    unfold put
    rw [if_pos hany2]
  refine ⟨by rw [h1], by rw [h2], ?_, by rw [h2]⟩
  rw [h2, hp1, h1]
  simp

/-- Witness for C6: the theorem applied to the empty table. -/
theorem C6_put_dedup_witness :
    (∀ r ∈ (⟨[], 0⟩ : QueueState).table, r.data_hash ≠ "h") ∧
    (put (⟨[], 0⟩ : QueueState) "d" "h" 7).2 = true ∧
    (put (put (⟨[], 0⟩ : QueueState) "d" "h" 7).1 "e" "h" 8).2 = false :=
  ⟨by decide,
    (C6_put_dedup ⟨[], 0⟩ "d" "e" "h" 7 8 (by decide)).1,
    (C6_put_dedup ⟨[], 0⟩ "d" "e" "h" 7 8 (by decide)).2.1⟩

/-! ### Lemmas about the retry loop -/

lemma sendLoop_attempts_le (attempt : Nat → Option HttpResponse) :
    ∀ (fuel i0 : Nat), (sendLoop attempt i0 fuel).2 ≤ fuel := by
  intro fuel
  induction fuel with
  | zero =>
    intro i0
    simp [sendLoop]
  | succ n ih =>
    intro i0
    cases hA : attempt i0 with
    | some r => simp [sendLoop, hA]
    | none =>
      simp only [sendLoop, hA]
      have := ih (i0 + 1)
      omega

lemma sendLoop_all_fail (attempt : Nat → Option HttpResponse) :
    ∀ (fuel i0 : Nat), (∀ i, i < fuel → attempt (i0 + i) = none) →
      sendLoop attempt i0 fuel = (none, fuel) := by
  intro fuel
  induction fuel with
  | zero =>
    intro i0 _
    rfl
  | succ n ih =>
    intro i0 hall
    have h0 : attempt i0 = none := by
      have := hall 0 (by omega)
      simpa using this
    have hrest : sendLoop attempt (i0 + 1) n = (none, n) := by
      apply ih
      intro i hi
      have := hall (i + 1) (by omega)
      rw [show i0 + (i + 1) = i0 + 1 + i by omega] at this
      exact this
    simp [sendLoop, h0, hrest]

lemma sendLoop_first_success (attempt : Nat → Option HttpResponse) :
    ∀ (fuel i0 j : Nat) (r : HttpResponse), j < fuel →
      (∀ i, i < j → attempt (i0 + i) = none) → attempt (i0 + j) = some r →
      sendLoop attempt i0 fuel = (some r, j + 1) := by
  intro fuel
  induction fuel with
  | zero =>
    intro i0 j r hj _ _
    omega
  | succ n ih =>
    intro i0 j r hj hfail hsucc
    cases j with
    | zero =>
      have h0 : attempt i0 = some r := by simpa using hsucc
      simp [sendLoop, h0]
    | succ j' =>
      have h0 : attempt i0 = none := by
        have := hfail 0 (by omega)
        simpa using this
      have hrest : sendLoop attempt (i0 + 1) n = (some r, j' + 1) := by
        apply ih (i0 + 1) j' r (by omega)
        · intro i hi
          have := hfail (i + 1) (by omega)
          rw [show i0 + (i + 1) = i0 + 1 + i by omega] at this
          exact this
        · rw [show i0 + 1 + j' = i0 + (j' + 1) by omega]
          exact hsucc
      simp [sendLoop, h0, hrest]

/-- C7: `send` issues at most `retry_times + 1` attempts, returns the
response of the first successful attempt, and raises `ScanRequestFailed`
exactly when all `retry_times + 1` attempts fail; with `retry_times = 0`
a single failing attempt raises, and on the S5 stub `retry_times = 2`
returns status 200 (after three attempts) while `retry_times = 1`
raises. -/
theorem C7_send_retries :
    ∀ (attempt : Nat → Option HttpResponse) (retry_times : Int),
      0 ≤ retry_times →
      (send_request "get" attempt retry_times).attemptsMade ≤ retry_times.toNat + 1 ∧
      ((∀ i, i < retry_times.toNat + 1 → attempt i = none) →
        send_request "get" attempt retry_times =
          .scanRequestFailed (retry_times.toNat + 1)) ∧
      (∀ (j : Nat) (r : HttpResponse), j ≤ retry_times.toNat →
        (∀ i, i < j → attempt i = none) → attempt j = some r →
        send_request "get" attempt retry_times = .ok r (j + 1)) ∧
      send_request "get" s5Attempt 2 = .ok ⟨200, [], ""⟩ 3 ∧
      send_request "get" s5Attempt 1 = .scanRequestFailed 2 ∧
      send_request "get" (fun _ => none) 0 = .scanRequestFailed 1 := by
  intro attempt rt hrt
  have hmem : "get" ∈ session_http_methods := by decide
  have hsend : send_request "get" attempt rt =
      match sendLoop attempt 0 (rt.toNat + 1) with
      | (some r, n) => .ok r n
      | (none, n) => .scanRequestFailed n := by
    unfold send_request
    rw [if_pos hmem, if_neg (by omega)]
  refine ⟨?_, ?_, ?_, by decide, by decide, by decide⟩
  · rw [hsend]
    have hle := sendLoop_attempts_le attempt (rt.toNat + 1) 0
    cases hsl : sendLoop attempt 0 (rt.toNat + 1) with
    | mk o n =>
      rw [hsl] at hle
      cases o <;> simpa [SendResult.attemptsMade] using hle
  · intro hall
    rw [hsend, sendLoop_all_fail attempt (rt.toNat + 1) 0
      (fun i hi => by simpa using hall i hi)]
  · intro j r hj hfail hsucc
    rw [hsend, sendLoop_first_success attempt (rt.toNat + 1) 0 j r (by omega)
      (fun i hi => by simpa using hfail i hi) (by simpa using hsucc)]

/-- Witness for C7: the theorem applied to the S5 stub with
`retry_times = 2`. -/
theorem C7_send_retries_witness :
    (0 : Int) ≤ 2 ∧ send_request "get" s5Attempt 2 = .ok ⟨200, [], ""⟩ 3 :=
  ⟨by decide, (C7_send_retries s5Attempt 2 (by decide)).2.2.2.1⟩

/-- C8: when the requested method is not one of the verbs the session can
issue, `send` surfaces the unknown-method error synchronously — before
any attempt is made (zero attempts, hence no network I/O and no
retry). -/
theorem C8_unknown_method :
    ∀ (method : String) (attempt : Nat → Option HttpResponse) (retry_times : Int),
      method ∉ session_http_methods →
      send_request method attempt retry_times = .unknownHTTPMethod ∧
      (send_request method attempt retry_times).attemptsMade = 0 := by
  intro method attempt rt hnm
  have h : send_request method attempt rt = .unknownHTTPMethod := by
    unfold send_request
    rw [if_neg hnm]
  exact ⟨h, by rw [h]; rfl⟩

/-- Witness for C8: the theorem applied to a verb the session does not
have. -/
theorem C8_unknown_method_witness :
    "brew" ∉ session_http_methods ∧
    send_request "brew" (fun _ => none) 3 = .unknownHTTPMethod :=
  ⟨by decide, (C8_unknown_method "brew" (fun _ => none) 3 (by decide)).1⟩

/-- C9: the `try`/`except` routing of `put` returns `False` for every
`IntegrityError` (whatever constraint was violated, not only the unique
index), raises `DatabaseError` for exactly the remaining driver errors,
and returns `True` on success. -/
theorem C9_put_error_routing :
    (∀ k, put_exception_policy (.integrityError k) = .ok false) ∧
    put_exception_policy .inserted = .ok true ∧
    (∀ e, put_exception_policy (.driverError e) = .error .databaseError) ∧
    (∀ o, put_exception_policy o = .ok false ↔ ∃ k, o = .integrityError k) ∧
    (∀ o, put_exception_policy o = .error .databaseError ↔ ∃ e, o = .driverError e) := by
  refine ⟨fun k => rfl, rfl, fun e => rfl, ?_, ?_⟩
  · intro o
    cases o with
    | inserted => simp [put_exception_policy]
    | integrityError k => simp [put_exception_policy]
    | driverError e => simp [put_exception_policy]
  · intro o
    cases o with
    | inserted => simp [put_exception_policy]
    | integrityError k => simp [put_exception_policy]
    | driverError e => simp [put_exception_policy]

end OpenraspIast
